import Mathlib

/-!
A shallow embedding of the Markdown viewer application (`src/main.rs`).

The program keeps a list of open document tabs, an active-tab index, a
status string and a text-scale factor.  Its pure logic is the tab
bookkeeping in `App::open_files`, `App::close_tab`, `App::reload_active`
and the two text-scale buttons in `App::update`.  File-system reads
(`fs::read_to_string`) are modelled by a function from paths to
`Except String String` (error message or file contents), the file
dialog's result by an `Option (List PathBuf)`, and `SystemTime::now()`
by a `Nat` parameter supplied to each operation.
-/

namespace MdViewer

/-- Model of Rust `PathBuf` restricted to the API surface the program uses:
`raw` is the full path (the key used for file-system reads) and
`fileName` is the result of `Path::file_name()` (`none` when the path has
no final file-name component). -/
structure PathBuf where
  raw : String
  fileName : Option String
deriving Repr, DecidableEq

/-- Split a character list at its last '.'; returns the parts before and
after that dot, or `none` when the list has no dot.  Helper for the model
of `Path::extension`. -/
def splitAtLastDot : List Char → Option (List Char × List Char)
  | [] => none
  | c :: cs =>
    match splitAtLastDot cs with
    | some (b, a) => some (c :: b, a)
    | none => if c = '.' then some ([], cs) else none

/-- Model of Rust `Path::extension()`: the portion of the file name after
the last '.', `none` when there is no file name, no dot, or the only dot
is the leading character (hidden files such as `.gitignore`). -/
def PathBuf.extension (p : PathBuf) : Option String :=
  match p.fileName with
  | none => none
  | some name =>
    match splitAtLastDot name.toList with
    | none => none
    | some (before, after) =>
      if before = [] then none else some (String.mk after)

/-- ASCII lower-casing of a character, as `char::to_lowercase` acts on the
ASCII range (the only range the extension comparison exercises). -/
def charToLower (c : Char) : Char :=
  if 65 ≤ c.toNat ∧ c.toNat ≤ 90 then Char.ofNat (c.toNat + 32) else c

/-- ASCII lower-casing of a string, modelling `str::to_lowercase`. -/
def asciiToLower (s : String) : String :=
  String.mk (s.toList.map charToLower)

/-- The `is_md` check of `App::open_files`: the path's extension,
lower-cased, is "md" or "markdown"; `false` when there is no extension
(`unwrap_or(false)`). -/
def is_md (p : PathBuf) : Bool :=
  (p.extension.map (fun e =>
    asciiToLower e == "md" || asciiToLower e == "markdown")).getD false

/-- Model of `DocTab`: one open document. `last_read` is a `SystemTime`
modelled as a `Nat`. -/
structure DocTab where
  title : String
  path : PathBuf
  content : String
  last_read : Nat
deriving Repr, DecidableEq

/-- The file system seen by the program: `fs::read_to_string` either
returns the file's contents or an error description. -/
abbrev FileSystem : Type := PathBuf → Except String String

/-- Model of `DocTab::from_path`: read the file; on success build the tab
with `title` the path's file name (falling back to "untitled.md"),
`last_read` the current time. -/
def DocTab.from_path (fs : FileSystem) (now : Nat) (path : PathBuf) :
    Except String DocTab :=
  match fs path with
  | .error e => .error e
  | .ok content =>
    .ok { title := path.fileName.getD "untitled.md"
          path := path
          content := content
          last_read := now }

/-- Model of the `App` state: the tab list, active index, status message
and markdown text-scale factor (`f32` modelled as `ℚ`).  The renderer
cache (`cm_cache`) is opaque external state never read or written by the
program's own logic and is omitted. -/
structure App where
  tabs : List DocTab
  active : Nat
  status : String
  md_text_scale : ℚ
deriving Repr, DecidableEq

/-- Model of `App::new`. -/
def App.new : App :=
  { tabs := [], active := 0, status := "Ready", md_text_scale := 1 }

/-- The body of the `for path in files` loop in `App::open_files`:
skip non-markdown paths with a status message; otherwise read the file,
on success append the tab, make it active and confirm, on failure record
the error in the status. -/
def App.open_one (fs : FileSystem) (now : Nat) (a : App) (path : PathBuf) :
    App :=
  if !(is_md path) then
    { a with status :=
        "Skipped non-markdown file: " ++ (path.fileName.getD "") }
  else
    match DocTab.from_path fs now path with
    | .ok tab =>
      let tabs := a.tabs ++ [tab]
      { a with tabs := tabs
               active := tabs.length - 1
               status := "Opened file" }
    | .error e => { a with status := "Failed to open: " ++ e }

/-- Model of `App::open_files`: the dialog returns `none` (cancelled,
no state change) or a list of picked paths processed in order. -/
def App.open_files (fs : FileSystem) (now : Nat)
    (files : Option (List PathBuf)) (a : App) : App :=
  match files with
  | none => a
  | some paths => paths.foldl (App.open_one fs now) a

/-- Model of `App::close_tab`: remove the tab at `idx` when the index is
valid, then clamp `active` to the new last index when it points past the
end (`saturating_sub 1` is `Nat` subtraction). -/
def App.close_tab (a : App) (idx : Nat) : App :=
  if idx < a.tabs.length then
    let tabs := a.tabs.eraseIdx idx
    if tabs.length ≤ a.active then
      { a with tabs := tabs, active := tabs.length - 1 }
    else
      { a with tabs := tabs }
  else a

/-- Model of `App::reload_active`: when there is a tab at index `active`,
re-read its path; on success replace its content and read time and confirm,
on failure record the error in the status; no-op when there is no active
tab. -/
def App.reload_active (fs : FileSystem) (now : Nat) (a : App) : App :=
  match a.tabs[a.active]? with
  | none => a
  | some tab =>
    match fs tab.path with
    | .ok new_content =>
      { a with
        tabs := a.tabs.set a.active
          { tab with content := new_content, last_read := now }
        status := "Reloaded from disk" }
    | .error e => { a with status := "Reload failed: " ++ e }

/-- The "A–" button of `App::update`: shrink the text scale by 0.9,
clamped below at 0.5. -/
def App.decrease_text_scale (a : App) : App :=
  { a with md_text_scale := max (a.md_text_scale * (9 / 10)) (1 / 2) }

/-- The "A+" button of `App::update`: grow the text scale by 1.1,
clamped above at 3.0. -/
def App.increase_text_scale (a : App) : App :=
  { a with md_text_scale := min (a.md_text_scale * (11 / 10)) 3 }

/-- A text-scale button press. -/
inductive ScaleAction where
  | increase
  | decrease
deriving Repr, DecidableEq

/-- Dispatch one text-scale button press. -/
def App.apply_scale (a : App) : ScaleAction → App
  | .increase => a.increase_text_scale
  | .decrease => a.decrease_text_scale

/-- The active-index invariant of the application state: when the tab list
is non-empty the active index is a valid position in it. -/
def activeInvariant (a : App) : Prop :=
  a.tabs ≠ [] → a.active < a.tabs.length

/-- The contents `fs` yields for `p`, defaulting to "" on error; used to
describe the tab built from a path whose read succeeds. -/
def okContent (fs : FileSystem) (p : PathBuf) : String :=
  match fs p with
  | .ok c => c
  | .error _ => ""

/-- The document tab `open_files` appends for an accepted path whose read
succeeds. -/
def okTab (fs : FileSystem) (now : Nat) (p : PathBuf) : DocTab :=
  { title := p.fileName.getD "untitled.md"
    path := p
    content := okContent fs p
    last_read := now }

/-- Clicking a tab label in the tab strip: sets the active index. -/
def App.select_tab (a : App) (idx : Nat) : App :=
  { a with active := idx }

/-- Does `needle` appear at the front of `hay`? Helper for substring
occurrence. -/
def leadsWith : List Char → List Char → Bool
  | [], _ => true
  | _ :: _, [] => false
  | a :: as, b :: bs => a = b && leadsWith as bs

/-- Does `needle` occur as a contiguous substring of `hay`? -/
def containsSub (needle : List Char) : List Char → Bool
  | [] => needle.isEmpty
  | c :: cs => leadsWith needle (c :: cs) || containsSub needle cs

/-- `mentions hay needle`: `needle` occurs as a substring of `hay`. -/
def mentions (hay needle : String) : Bool :=
  containsSub needle.toList hay.toList

/-! Concrete paths, file system and states used by witnesses and
counterexamples. -/

/-- A path without a Markdown extension. -/
def pTxt : PathBuf := ⟨"notes.txt", some "notes.txt"⟩

/-- A Markdown path whose read succeeds under `fsEx`. -/
def pMd : PathBuf := ⟨"readme.md", some "readme.md"⟩

/-- A second Markdown path whose read succeeds under `fsEx`. -/
def pMd2 : PathBuf := ⟨"guide.md", some "guide.md"⟩

/-- A concrete file system: two readable Markdown files, everything else
missing. -/
def fsEx : FileSystem := fun p =>
  if p.raw = "readme.md" then .ok "# Hi"
  else if p.raw = "guide.md" then .ok "# Guide"
  else .error "No such file"

/-- A concrete document tab for `readme.md` holding stale content. -/
def tabR : DocTab := ⟨"readme.md", pMd, "old", 0⟩

/-- A concrete document tab whose path does not exist under `fsEx`. -/
def tabB : DocTab := ⟨"b.md", ⟨"b.md", some "b.md"⟩, "# B", 0⟩

/-- A one-tab application state. -/
def oneTabApp : App := ⟨[tabR], 0, "Ready", 1⟩

/-- A two-tab application state with the second tab active. -/
def twoTabApp : App := ⟨[tabR, tabB], 1, "Ready", 1⟩

/-! Helper lemmas about the three `open_one` outcomes. -/

/-- Processing a non-markdown path only rewrites the status. -/
theorem open_one_skip (fs : FileSystem) (now : Nat) (a : App) (p : PathBuf)
    (h : is_md p = false) :
    App.open_one fs now a p =
      { a with status :=
          "Skipped non-markdown file: " ++ p.fileName.getD "" } := by
  unfold App.open_one
  rw [h]
  rfl

/-- Processing an accepted path whose read succeeds appends the tab,
activates it and confirms. -/
theorem open_one_valid (fs : FileSystem) (now : Nat) (a : App) (p : PathBuf)
    (hmd : is_md p = true) (hok : (fs p).isOk = true) :
    App.open_one fs now a p =
      { a with tabs := a.tabs ++ [okTab fs now p]
               active := a.tabs.length
               status := "Opened file" } := by
  unfold App.open_one DocTab.from_path
  rw [hmd]
  cases hfs : fs p with
  | error e => rw [hfs] at hok; simp [Except.isOk, Except.toBool] at hok
  | ok c => simp [okTab, okContent, hfs]

/-- Processing an accepted path whose read fails only rewrites the
status. -/
theorem open_one_read_error (fs : FileSystem) (now : Nat) (a : App)
    (p : PathBuf) (e : String)
    (hmd : is_md p = true) (herr : fs p = .error e) :
    App.open_one fs now a p = { a with status := "Failed to open: " ++ e } := by
  unfold App.open_one DocTab.from_path
  rw [hmd, herr]
  rfl

end MdViewer

namespace MdViewer

/-- One `close_tab` call preserves the active-index invariant. -/
theorem close_tab_preserves_activeInvariant (a : App) (h : activeInvariant a)
    (idx : Nat) : activeInvariant (a.close_tab idx) := by
  unfold App.close_tab
  split
  · dsimp only
    split
    · intro hne
      show (a.tabs.eraseIdx idx).length - 1 < (a.tabs.eraseIdx idx).length
      have hlen : 0 < (a.tabs.eraseIdx idx).length :=
        List.length_pos.mpr (by simpa using hne)
      omega
    · intro _
      show a.active < (a.tabs.eraseIdx idx).length
      omega
  · exact h

/-- C1: after any sequence of Close operations applied to a state
satisfying the active-index invariant, the invariant still holds: whenever
`tabs` is non-empty, `active < tabs.length` (the lower bound is inherent
to `Nat`); when `tabs` is empty the invariant places no constraint on
`active`, which the view ignores. -/
theorem close_sequence_preserves_activeInvariant (a : App)
    (h : activeInvariant a) (ids : List Nat) :
    activeInvariant (ids.foldl App.close_tab a) := by
  induction ids generalizing a with
  | nil => exact h
  | cons i ids ih =>
    exact ih _ (close_tab_preserves_activeInvariant a h i)

/-- Witness for C1: a concrete two-tab state satisfies the invariant, and
after closing tabs 0, 5 and 0 the invariant still holds. -/
theorem close_sequence_preserves_activeInvariant_witness :
    activeInvariant twoTabApp
      ∧ activeInvariant ([0, 5, 0].foldl App.close_tab twoTabApp) := by
  have h0 : activeInvariant twoTabApp := by
    intro _; decide
  exact ⟨h0, close_sequence_preserves_activeInvariant twoTabApp h0 [0, 5, 0]⟩

end MdViewer

namespace MdViewer

/-- C10: Close with an out-of-range index is a complete no-op, and Close
never modifies the status, the text scale, or the value of any tab that
remains (remaining tabs are all among the original tabs). -/
theorem close_tab_frame (a : App) (idx : Nat) :
    (a.tabs.length ≤ idx → a.close_tab idx = a)
      ∧ (a.close_tab idx).status = a.status
      ∧ (a.close_tab idx).md_text_scale = a.md_text_scale
      ∧ (∀ t ∈ (a.close_tab idx).tabs, t ∈ a.tabs) := by
  refine ⟨fun h => ?_, ?_, ?_, ?_⟩
  · unfold App.close_tab
    rw [if_neg (by omega)]
  · unfold App.close_tab
    split
    · dsimp only
      split <;> rfl
    · rfl
  · unfold App.close_tab
    split
    · dsimp only
      split <;> rfl
    · rfl
  · unfold App.close_tab
    split
    · dsimp only
      split
      · intro t ht
        exact List.eraseIdx_subset _ _ ht
      · intro t ht
        exact List.eraseIdx_subset _ _ ht
    · intro t ht
      exact ht

/-- Witness for C10: closing index 7 of the concrete two-tab state changes
nothing, and closing index 0 keeps status, scale, and remaining tab
values. -/
theorem close_tab_frame_witness :
    twoTabApp.close_tab 7 = twoTabApp
      ∧ (twoTabApp.close_tab 0).status = twoTabApp.status
      ∧ (twoTabApp.close_tab 0).md_text_scale = twoTabApp.md_text_scale
      ∧ (tabB ∈ (twoTabApp.close_tab 0).tabs → tabB ∈ twoTabApp.tabs) := by
  refine ⟨(close_tab_frame twoTabApp 7).1 (by decide),
    (close_tab_frame twoTabApp 0).2.1,
    (close_tab_frame twoTabApp 0).2.2.1,
    fun h => (close_tab_frame twoTabApp 0).2.2.2 tabB h⟩

end MdViewer

namespace MdViewer

/-- C8: with exactly two tabs and `active = 1`, Close(0) leaves exactly
the former index-1 tab and sets `active = 0`; in general, a valid close
that leaves `active` pointing at or past the end of the shrunken list
clamps `active` to the new `tabs.length - 1`. -/
theorem close_tab_clamps_active (a : App) :
    (∀ t0 t1, a.tabs = [t0, t1] → a.active = 1 →
        (a.close_tab 0).tabs = [t1] ∧ (a.close_tab 0).active = 0)
      ∧ (∀ idx, idx < a.tabs.length →
          (a.tabs.eraseIdx idx).length ≤ a.active →
          (a.close_tab idx).tabs = a.tabs.eraseIdx idx
            ∧ (a.close_tab idx).active = (a.tabs.eraseIdx idx).length - 1) := by
  constructor
  · intro t0 t1 ht ha
    unfold App.close_tab
    rw [ht, ha]
    exact ⟨rfl, rfl⟩
  · intro idx hidx hpast
    unfold App.close_tab
    rw [if_pos hidx]
    dsimp only
    rw [if_pos hpast]
    exact ⟨rfl, rfl⟩

/-- Witness for C8: in the concrete two-tab state with the second tab
active, Close(0) leaves only the second tab and `active = 0`, and the
general clamping clause applies at index 0. -/
theorem close_tab_clamps_active_witness :
    ((twoTabApp.close_tab 0).tabs = [tabB] ∧ (twoTabApp.close_tab 0).active = 0)
      ∧ ((twoTabApp.close_tab 0).tabs = twoTabApp.tabs.eraseIdx 0
          ∧ (twoTabApp.close_tab 0).active
              = (twoTabApp.tabs.eraseIdx 0).length - 1) :=
  ⟨(close_tab_clamps_active twoTabApp).1 tabR tabB rfl rfl,
    (close_tab_clamps_active twoTabApp).2 0 (by decide) (by decide)⟩

end MdViewer

namespace MdViewer

/-- Folding `open_one` over a batch of accepted, readable paths appends
the corresponding tabs in order, preserves the text scale, and (for a
non-empty batch) leaves the last appended tab active with the "opened"
confirmation. -/
theorem open_fold_valid (fs : FileSystem) (now : Nat) (paths : List PathBuf) :
    ∀ a : App,
      (∀ p ∈ paths, is_md p = true) →
      (∀ p ∈ paths, (fs p).isOk = true) →
      (paths.foldl (App.open_one fs now) a).tabs
          = a.tabs ++ paths.map (okTab fs now)
        ∧ (paths.foldl (App.open_one fs now) a).md_text_scale
            = a.md_text_scale
        ∧ (paths ≠ [] →
            (paths.foldl (App.open_one fs now) a).active
                = a.tabs.length + paths.length - 1
              ∧ (paths.foldl (App.open_one fs now) a).status
                  = "Opened file") := by
  induction paths with
  | nil => intro a _ _; simp
  | cons p rest ih =>
    intro a hmd hok
    have hstep := open_one_valid fs now a p (hmd p (by simp)) (hok p (by simp))
    have hrest := ih (App.open_one fs now a p)
      (fun q hq => hmd q (List.mem_cons_of_mem _ hq))
      (fun q hq => hok q (List.mem_cons_of_mem _ hq))
    rw [List.foldl_cons]
    refine ⟨?_, ?_, fun _ => ⟨?_, ?_⟩⟩
    · rw [hrest.1, hstep]
      simp
    · rw [hrest.2.1, hstep]
    · rcases Decidable.em (rest = []) with hr | hr
      · subst hr
        rw [List.foldl_nil, hstep]
        simp
      · rw [(hrest.2.2 hr).1, hstep]
        simp only [List.length_append, List.length_cons, List.length_nil]
        omega
    · rcases Decidable.em (rest = []) with hr | hr
      · subst hr
        rw [List.foldl_nil, hstep]
      · exact (hrest.2.2 hr).2

/-- C2: opening a non-empty batch of paths that all carry a Markdown
extension and all read successfully appends exactly one tab per path, in
selection order, sets `active` to the index of the last appended tab, and
sets the status to the "Opened file" confirmation. -/
theorem open_batch_all_valid (fs : FileSystem) (now : Nat) (a : App)
    (paths : List PathBuf)
    (hmd : ∀ p ∈ paths, is_md p = true)
    (hok : ∀ p ∈ paths, (fs p).isOk = true)
    (hne : paths ≠ []) :
    (App.open_files fs now (some paths) a).tabs
        = a.tabs ++ paths.map (okTab fs now)
      ∧ (App.open_files fs now (some paths) a).tabs.length
          = a.tabs.length + paths.length
      ∧ (App.open_files fs now (some paths) a).active
          = (App.open_files fs now (some paths) a).tabs.length - 1
      ∧ (App.open_files fs now (some paths) a).status = "Opened file" := by
  have h := open_fold_valid fs now paths a hmd hok
  have hlen : (App.open_files fs now (some paths) a).tabs.length
      = a.tabs.length + paths.length := by
    show (paths.foldl (App.open_one fs now) a).tabs.length = _
    rw [h.1]
    simp
  refine ⟨h.1, hlen, ?_, (h.2.2 hne).2⟩
  rw [hlen]
  exact (h.2.2 hne).1

/-- Witness for C2: opening the two readable Markdown files from the
initial state yields exactly those two tabs, active index 1, and the
"Opened file" status. -/
theorem open_batch_all_valid_witness :
    (App.open_files fsEx 7 (some [pMd, pMd2]) App.new).tabs
        = App.new.tabs ++ [pMd, pMd2].map (okTab fsEx 7)
      ∧ (App.open_files fsEx 7 (some [pMd, pMd2]) App.new).tabs.length
          = App.new.tabs.length + 2
      ∧ (App.open_files fsEx 7 (some [pMd, pMd2]) App.new).active
          = (App.open_files fsEx 7 (some [pMd, pMd2]) App.new).tabs.length - 1
      ∧ (App.open_files fsEx 7 (some [pMd, pMd2]) App.new).status
          = "Opened file" :=
  open_batch_all_valid fsEx 7 App.new [pMd, pMd2]
    (by decide) (by decide) (by decide)

end MdViewer

namespace MdViewer

/-- Folding `open_one` over any batch whose accepted paths all read
successfully appends exactly the tabs of the accepted (Markdown) paths,
in order. -/
theorem open_fold_tabs_filter (fs : FileSystem) (now : Nat)
    (paths : List PathBuf) :
    ∀ a : App,
      (∀ p ∈ paths, is_md p = true → (fs p).isOk = true) →
      (paths.foldl (App.open_one fs now) a).tabs
        = a.tabs ++ (paths.filter (fun p => is_md p)).map (okTab fs now) := by
  induction paths with
  | nil => intro a _; simp
  | cons p rest ih =>
    intro a h
    have hrest := ih (App.open_one fs now a p)
      (fun q hq hmq => h q (List.mem_cons_of_mem _ hq) hmq)
    rw [List.foldl_cons] at *
    rcases Decidable.em (is_md p = true) with hp | hp
    · rw [hrest, open_one_valid fs now a p hp (h p (by simp) hp)]
      simp [List.filter_cons, hp]
    · have hp' : is_md p = false := by
        cases hmd : is_md p
        · rfl
        · exact absurd hmd hp
      rw [hrest, open_one_skip fs now a p hp']
      simp [List.filter_cons, hp']

/-- The status after a batch is the status produced by the batch's last
path; when that last path is skipped, the status names it. -/
theorem open_fold_status_last_skip (fs : FileSystem) (now : Nat) (a : App)
    (init : List PathBuf) (q : PathBuf) (h : is_md q = false) :
    ((init ++ [q]).foldl (App.open_one fs now) a).status
      = "Skipped non-markdown file: " ++ q.fileName.getD "" := by
  rw [List.foldl_append, List.foldl_cons, List.foldl_nil,
    open_one_skip fs now _ q h]

/-- Counterexample for C3 as stated: the batch `[notes.txt, readme.md]`
contains a valid and an invalid path, yet the final status is the
"Opened file" confirmation from the later valid path; it does not mention
the skipped `notes.txt` at all. -/
theorem open_batch_mixed_counterexample :
    (App.open_files fsEx 7 (some [pTxt, pMd]) App.new).status = "Opened file"
      ∧ "Opened file" ≠ "Skipped non-markdown file: notes.txt"
      ∧ mentions (App.open_files fsEx 7 (some [pTxt, pMd]) App.new).status
          "notes.txt" = false := by
  refine ⟨by decide, by decide, by decide⟩

/-- C3 (amended): a mixed batch whose accepted paths all read successfully
adds tabs exactly for the accepted Markdown paths, in order; and whenever
the batch's final path is a skipped (non-Markdown) one, the final status
names that last skipped file. -/
theorem open_batch_mixed (fs : FileSystem) (now : Nat) (a : App)
    (paths : List PathBuf)
    (hok : ∀ p ∈ paths, is_md p = true → (fs p).isOk = true)
    (_hsome : ∃ p ∈ paths, is_md p = true)
    (_hskip : ∃ p ∈ paths, is_md p = false) :
    (App.open_files fs now (some paths) a).tabs
        = a.tabs ++ (paths.filter (fun p => is_md p)).map (okTab fs now)
      ∧ (∀ init q, paths = init ++ [q] → is_md q = false →
          (App.open_files fs now (some paths) a).status
            = "Skipped non-markdown file: " ++ q.fileName.getD "") := by
  constructor
  · exact open_fold_tabs_filter fs now paths a hok
  · intro init q hpaths hq
    show (paths.foldl (App.open_one fs now) a).status = _
    rw [hpaths]
    exact open_fold_status_last_skip fs now a init q hq

/-- Witness for C3 (amended): the spec's own scenario, `readme.md` then
`notes.txt`: exactly one tab (for `readme.md`) is added and the status
names `notes.txt`. -/
theorem open_batch_mixed_witness :
    (App.open_files fsEx 7 (some [pMd, pTxt]) App.new).tabs
        = App.new.tabs
            ++ ([pMd, pTxt].filter (fun p => is_md p)).map (okTab fsEx 7)
      ∧ (App.open_files fsEx 7 (some [pMd, pTxt]) App.new).status
          = "Skipped non-markdown file: " ++ pTxt.fileName.getD "" := by
  have h := open_batch_mixed fsEx 7 App.new [pMd, pTxt]
    (by decide) (by decide) (by decide)
  exact ⟨h.1, h.2 [pMd] pTxt rfl (by decide)⟩

end MdViewer

namespace MdViewer

/-- C4: a selected path whose extension is not `md`/`markdown` under
case-insensitive comparison (including paths with no extension at all)
adds no tab: only the status changes, to a message naming the skipped
file; and processing continues with the remaining paths of the batch from
that updated state. -/
theorem open_skips_non_markdown (fs : FileSystem) (now : Nat) (a : App)
    (p : PathBuf) (rest : List PathBuf)
    (hext : ∀ e, p.extension = some e →
      asciiToLower e ≠ "md" ∧ asciiToLower e ≠ "markdown") :
    App.open_one fs now a p =
        { a with status :=
            "Skipped non-markdown file: " ++ p.fileName.getD "" }
      ∧ App.open_files fs now (some (p :: rest)) a
          = App.open_files fs now (some rest)
              { a with status :=
                  "Skipped non-markdown file: " ++ p.fileName.getD "" } := by
  have hmd : is_md p = false := by
    unfold is_md
    cases hx : p.extension with
    | none => rfl
    | some e =>
      have he := hext e hx
      show (asciiToLower e == "md" || asciiToLower e == "markdown") = false
      simp only [Bool.or_eq_false_iff, beq_eq_false_iff_ne]
      exact he
  have h1 := open_one_skip fs now a p hmd
  refine ⟨h1, ?_⟩
  show (p :: rest).foldl (App.open_one fs now) a = _
  rw [List.foldl_cons, h1]
  rfl

/-- Witness for C4: skipping the concrete `notes.txt` in front of a batch
leaves only a status change and defers to the rest of the batch. -/
theorem open_skips_non_markdown_witness :
    App.open_one fsEx 7 App.new pTxt =
        { App.new with status :=
            "Skipped non-markdown file: " ++ pTxt.fileName.getD "" }
      ∧ App.open_files fsEx 7 (some [pTxt, pMd]) App.new
          = App.open_files fsEx 7 (some [pMd])
              { App.new with status :=
                  "Skipped non-markdown file: " ++ pTxt.fileName.getD "" } :=
  open_skips_non_markdown fsEx 7 App.new pTxt [pMd] (by decide)

/-- C6: an accepted Markdown path whose read fails adds no tab: only the
status changes, to a message ending in the underlying error description;
and processing continues with the remaining paths of the batch from that
updated state. -/
theorem open_read_failure (fs : FileSystem) (now : Nat) (a : App)
    (p : PathBuf) (rest : List PathBuf) (e : String)
    (hmd : is_md p = true) (herr : fs p = .error e) :
    App.open_one fs now a p = { a with status := "Failed to open: " ++ e }
      ∧ App.open_files fs now (some (p :: rest)) a
          = App.open_files fs now (some rest)
              { a with status := "Failed to open: " ++ e } := by
  have h1 := open_one_read_error fs now a p e hmd herr
  refine ⟨h1, ?_⟩
  show (p :: rest).foldl (App.open_one fs now) a = _
  rw [List.foldl_cons, h1]
  rfl

/-- Witness for C6: a missing Markdown file `gone.md` in front of a batch
produces the failure status with the error description and defers to the
rest of the batch. -/
theorem open_read_failure_witness :
    App.open_one fsEx 7 App.new ⟨"gone.md", some "gone.md"⟩
        = { App.new with status := "Failed to open: " ++ "No such file" }
      ∧ App.open_files fsEx 7 (some [⟨"gone.md", some "gone.md"⟩, pMd]) App.new
          = App.open_files fsEx 7 (some [pMd])
              { App.new with status := "Failed to open: " ++ "No such file" } :=
  open_read_failure fsEx 7 App.new ⟨"gone.md", some "gone.md"⟩ [pMd]
    "No such file" (by decide) rfl

end MdViewer

namespace MdViewer

/-- C5: with a valid active tab, a failing re-read leaves the whole state
(in particular that tab's content and read time) unchanged except for the
status, which carries the error description; a successful re-read replaces
only the active tab's content and read time (advancing it when the clock
has moved on) and sets the success status. -/
theorem reload_active_spec (fs : FileSystem) (now : Nat) (a : App)
    (tab : DocTab) (h : a.tabs[a.active]? = some tab) :
    (∀ e, fs tab.path = .error e →
        a.reload_active fs now = { a with status := "Reload failed: " ++ e })
      ∧ (∀ c, fs tab.path = .ok c →
          a.reload_active fs now =
            { a with
              tabs := a.tabs.set a.active
                { tab with content := c, last_read := now }
              status := "Reloaded from disk" })
      ∧ (∀ c, fs tab.path = .ok c → tab.last_read < now →
          ∃ tab2, (a.reload_active fs now).tabs[a.active]? = some tab2
            ∧ tab2.content = c ∧ tab.last_read < tab2.last_read
            ∧ tab2.title = tab.title ∧ tab2.path = tab.path) := by
  have hact : a.active < a.tabs.length := (List.getElem?_eq_some.mp h).1
  have hok : ∀ c, fs tab.path = .ok c →
      a.reload_active fs now =
        { a with
          tabs := a.tabs.set a.active
            { tab with content := c, last_read := now }
          status := "Reloaded from disk" } := by
    intro c hc
    unfold App.reload_active
    rw [h]
    simp only [hc]
  refine ⟨fun e he => ?_, hok, fun c hc hlt => ?_⟩
  · unfold App.reload_active
    rw [h]
    simp only [he]
  · refine ⟨{ tab with content := c, last_read := now }, ?_, rfl, hlt, rfl, rfl⟩
    rw [hok c hc]
    exact List.getElem?_set_eq_of_lt _ (by simpa using hact)

/-- Witness for C5: reloading the stale `readme.md` tab succeeds and
updates it, and reloading the missing `b.md` tab fails and only rewrites
the status. -/
theorem reload_active_spec_witness :
    oneTabApp.reload_active fsEx 5 =
        { oneTabApp with
          tabs := oneTabApp.tabs.set 0
            { tabR with content := "# Hi", last_read := 5 }
          status := "Reloaded from disk" }
      ∧ twoTabApp.reload_active fsEx 5 =
          { twoTabApp with status := "Reload failed: " ++ "No such file" } :=
  ⟨(reload_active_spec fsEx 5 oneTabApp tabR rfl).2.1 "# Hi" rfl,
    (reload_active_spec fsEx 5 twoTabApp tabB rfl).1 "No such file" rfl⟩

end MdViewer

namespace MdViewer

/-- The text-scale invariant: the factor lies in [0.5, 3]. -/
def scaleInv (a : App) : Prop :=
  (1 : ℚ) / 2 ≤ a.md_text_scale ∧ a.md_text_scale ≤ 3

/-- One text-scale button press preserves the scale invariant. -/
theorem apply_scale_preserves_scaleInv (a : App) (h : scaleInv a)
    (act : ScaleAction) : scaleInv (a.apply_scale act) := by
  obtain ⟨h1, h2⟩ := h
  cases act
  · constructor
    · show (1 : ℚ) / 2 ≤ min (a.md_text_scale * (11 / 10)) 3
      refine le_min ?_ (by norm_num)
      nlinarith
    · exact min_le_right _ _
  · constructor
    · exact le_max_right _ _
    · show max (a.md_text_scale * (9 / 10)) (1 / 2) ≤ 3
      refine max_le ?_ (by norm_num)
      nlinarith

/-- C7: starting from the initial state, any sequence of increase and
decrease presses keeps `md_text_scale` within [0.5, 3]; a press of
increase at scale 3 leaves it at 3, and a press of decrease at scale 0.5
leaves it at 0.5. -/
theorem text_scale_bounded (acts : List ScaleAction) :
    ((1 : ℚ) / 2 ≤ (acts.foldl App.apply_scale App.new).md_text_scale
        ∧ (acts.foldl App.apply_scale App.new).md_text_scale ≤ 3)
      ∧ (∀ a : App, a.md_text_scale = 3 →
          a.increase_text_scale.md_text_scale = 3)
      ∧ (∀ a : App, a.md_text_scale = 1 / 2 →
          a.decrease_text_scale.md_text_scale = 1 / 2) := by
  refine ⟨?_, ?_, ?_⟩
  · have hfold : ∀ (l : List ScaleAction) (a : App), scaleInv a →
        scaleInv (l.foldl App.apply_scale a) := by
      intro l
      induction l with
      | nil => exact fun a h => h
      | cons x xs ih =>
        exact fun a h => ih _ (apply_scale_preserves_scaleInv a h x)
    exact hfold acts App.new ⟨by norm_num [App.new], by norm_num [App.new]⟩
  · intro a ha
    show min (a.md_text_scale * (11 / 10)) 3 = 3
    rw [ha, min_eq_right (by norm_num)]
  · intro a ha
    show max (a.md_text_scale * (9 / 10)) (1 / 2) = 1 / 2
    rw [ha, max_eq_right (by norm_num)]

/-- Witness for C7: a concrete press sequence stays in bounds, and the
two boundary idempotence facts hold at concrete states with scale 3 and
0.5. -/
theorem text_scale_bounded_witness :
    ((1 : ℚ) / 2 ≤ ([ScaleAction.increase, ScaleAction.decrease,
          ScaleAction.decrease].foldl App.apply_scale App.new).md_text_scale
        ∧ ([ScaleAction.increase, ScaleAction.decrease,
          ScaleAction.decrease].foldl App.apply_scale App.new).md_text_scale
            ≤ 3)
      ∧ ({ App.new with md_text_scale := 3 }).increase_text_scale.md_text_scale
          = 3
      ∧ ({ App.new with
            md_text_scale := 1 / 2 }).decrease_text_scale.md_text_scale
          = 1 / 2 := by
  have h := text_scale_bounded
    [ScaleAction.increase, ScaleAction.decrease, ScaleAction.decrease]
  exact ⟨h.1, h.2.1 _ rfl, h.2.2 _ rfl⟩

end MdViewer

namespace MdViewer

/-- Processing one selected path never rewrites existing tabs: it leaves
the tab list unchanged or appends to it. -/
theorem open_one_tabs_mono (fs : FileSystem) (now : Nat) (a : App)
    (p : PathBuf) :
    ∃ r, (App.open_one fs now a p).tabs = a.tabs ++ r := by
  rcases Decidable.em (is_md p = true) with hp | hp
  · cases hfs : fs p with
    | error e =>
      rw [open_one_read_error fs now a p e hp hfs]
      exact ⟨[], by simp⟩
    | ok c =>
      have hok : (fs p).isOk = true := by rw [hfs]; rfl
      rw [open_one_valid fs now a p hp hok]
      exact ⟨[okTab fs now p], rfl⟩
  · have hp' : is_md p = false := by
      cases hmd : is_md p
      · rfl
      · exact absurd hmd hp
    rw [open_one_skip fs now a p hp']
    exact ⟨[], by simp⟩

/-- Processing a whole batch never rewrites existing tabs. -/
theorem open_fold_tabs_mono (fs : FileSystem) (now : Nat)
    (paths : List PathBuf) :
    ∀ a : App, ∃ r, (paths.foldl (App.open_one fs now) a).tabs
      = a.tabs ++ r := by
  induction paths with
  | nil => exact fun a => ⟨[], by simp⟩
  | cons p rest ih =>
    intro a
    obtain ⟨r1, h1⟩ := open_one_tabs_mono fs now a p
    obtain ⟨r2, h2⟩ := ih (App.open_one fs now a p)
    exact ⟨r1 ++ r2, by rw [List.foldl_cons, h2, h1, List.append_assoc]⟩

/-- C9: Reload never changes any tab's title or path (whatever the read's
outcome); with no tabs, Reload changes nothing at all, status included;
and no other operation mutates an existing tab: opening preserves every
existing tab in place, closing keeps every remaining tab's value, and tab
selection and the text-scale presses leave the tab list untouched. -/
theorem reload_frame (fs : FileSystem) (now : Nat) (a : App) :
    (∀ i : Nat,
        ((a.reload_active fs now).tabs[i]?).map DocTab.title
            = (a.tabs[i]?).map DocTab.title
          ∧ ((a.reload_active fs now).tabs[i]?).map DocTab.path
              = (a.tabs[i]?).map DocTab.path)
      ∧ (a.tabs = [] → a.reload_active fs now = a)
      ∧ (∀ files, (App.open_files fs now files a).tabs.take a.tabs.length
          = a.tabs)
      ∧ (∀ idx, ∀ t ∈ (a.close_tab idx).tabs, t ∈ a.tabs)
      ∧ (∀ idx, (a.select_tab idx).tabs = a.tabs)
      ∧ a.increase_text_scale.tabs = a.tabs
      ∧ a.decrease_text_scale.tabs = a.tabs := by
  refine ⟨?_, ?_, ?_, ?_, fun _ => rfl, rfl, rfl⟩
  · intro i
    cases hget : a.tabs[a.active]? with
    | none =>
      unfold App.reload_active
      rw [hget]
      exact ⟨rfl, rfl⟩
    | some tab =>
      have hact : a.active < a.tabs.length := (List.getElem?_eq_some.mp hget).1
      cases hfs : fs tab.path with
      | error e =>
        unfold App.reload_active
        rw [hget]
        simp [hfs]
      | ok c =>
        unfold App.reload_active
        rw [hget]
        simp only [hfs]
        rcases Decidable.em (a.active = i) with hi | hi
        · subst hi
          rw [List.getElem?_set_eq_of_lt _ hact, hget]
          exact ⟨rfl, rfl⟩
        · rw [List.getElem?_set_ne hi]
          exact ⟨rfl, rfl⟩
  · intro h
    have hnone : a.tabs[a.active]? = none := by rw [h]; rfl
    unfold App.reload_active
    rw [hnone]
  · intro files
    cases files with
    | none => exact List.take_length a.tabs
    | some paths =>
      obtain ⟨r, hr⟩ := open_fold_tabs_mono fs now paths a
      show ((paths.foldl (App.open_one fs now) a).tabs).take _ = _
      rw [hr]
      exact List.take_left a.tabs r
  · intro idx
    unfold App.close_tab
    split
    · dsimp only
      split
      · intro t ht
        exact List.eraseIdx_subset _ _ ht
      · intro t ht
        exact List.eraseIdx_subset _ _ ht
    · intro t ht
      exact ht

/-- Witness for C9: the failing reload of the two-tab state keeps every
title and path; the empty initial state is untouched by Reload. -/
theorem reload_frame_witness :
    ((twoTabApp.reload_active fsEx 5).tabs[1]?).map DocTab.title
        = (twoTabApp.tabs[1]?).map DocTab.title
      ∧ App.new.reload_active fsEx 5 = App.new
      ∧ (App.open_files fsEx 5 (some [pMd]) twoTabApp).tabs.take
          twoTabApp.tabs.length = twoTabApp.tabs :=
  ⟨((reload_frame fsEx 5 twoTabApp).1 1).1,
    (reload_frame fsEx 5 App.new).2.1 rfl,
    (reload_frame fsEx 5 twoTabApp).2.2.1 (some [pMd])⟩

end MdViewer
